import Mathlib

/-!
A verification development for the SATN / PSQL textual-serialization layer
(`crates/sats/src/satn.rs`) and the log text printer
(`crates/cli/src/subcommands/logs.rs`).

The serializer state is embedded as a `Fmt` record: the writer mode
(`pretty`), the indentation state (`indent`, `on_newline`) and the text
written so far (`out`, as a list of characters).  Panicking slice indexing
in the PSQL formatter is modelled by `Option`.
-/

/- ## Writer (`Writer` / `IndentedWriter` in satn.rs) -/

/-- Writer state.  `pretty` selects `Writer::Pretty` vs `Writer::Normal`;
`indent` and `on_newline` embed `IndentState`; `out` is the text sink. -/
structure Fmt where
  pretty : Bool
  indent : Nat
  on_newline : Bool
  out : List Char
deriving DecidableEq, Repr

/-- The indentation text for depth `d`: `d` copies of four spaces,
as written by the loop in `IndentedWriter::write_str`. -/
def indentChars : Nat → List Char
  | 0 => []
  | d + 1 => "    ".data ++ indentChars d

/-- `str::split_inclusive('\n')`: splits into fragments, each ending with
a newline except possibly the last; yields nothing on empty input. -/
def splitInc : List Char → List (List Char)
  | [] => []
  | c :: cs =>
    if c = '\n' then [c] :: splitInc cs
    else
      match splitInc cs with
      | [] => [[c]]
      | g :: gs => (c :: g) :: gs

/-- `s.ends_with('\n')` on a fragment. -/
def gEndsNl (g : List Char) : Bool := g.getLast? = some '\n'

/-- The fragment loop of `IndentedWriter::write_str`: before each fragment,
if `on_newline`, emit the indentation; then the fragment; then record
whether the fragment ended with a newline.  Returns the emitted text and
the final `on_newline` flag. -/
def writeFragsGo (d : Nat) (b : Bool) : List (List Char) → List Char × Bool
  | [] => ([], b)
  | g :: gs =>
    let r := writeFragsGo d (gEndsNl g) gs
    ((if b then indentChars d else []) ++ g ++ r.1, r.2)

/-- `fmt::Write::write_str` on `Writer`: `Normal` forwards verbatim,
`Pretty` runs the `IndentedWriter` fragment loop. -/
def writeStr (s : String) (w : Fmt) : Fmt :=
  if w.pretty then
    let r := writeFragsGo w.indent w.on_newline (splitInc s.data)
    { w with out := w.out ++ r.1, on_newline := r.2 }
  else
    { w with out := w.out ++ s.data }

/-- `write_char`, defined through `write_str` as in `fmt::Write`. -/
def writeChar (c : Char) (w : Fmt) : Fmt := writeStr (String.mk [c]) w

/-- Modelled from the spec: the writer invariant, stated character by
character — indentation text is emitted immediately after any newline
character (and at the start when already on a fresh line) and before the
next fragment, once per line.  Returns text and final fresh-line flag. -/
def specIndented (ind : List Char) : Bool → List Char → List Char × Bool
  | b, [] => ([], b)
  | b, c :: cs =>
    let r := specIndented ind (c = '\n') cs
    ((if b then ind else []) ++ c :: r.1, r.2)

/- ## Entry separation (`EntryWrapper::entry` in satn.rs) -/

/-- `EntryWrapper::entry` for an infallible entry renderer.  Pretty mode:
newline before the first entry only, then depth+1, the entry, the
separator, a newline, depth-1.  Normal mode: separator and space between
entries. -/
def entryGen (sep : Char) (hf : Bool) (render : Fmt → Fmt) (w : Fmt) : Fmt :=
  if w.pretty then
    let w := if !hf then writeChar '\n' w else w
    let w := { w with indent := w.indent + 1 }
    let w := render w
    let w := writeChar '\n' (writeChar sep w)
    { w with indent := w.indent - 1 }
  else
    let w := if hf then writeChar ' ' (writeChar sep w) else w
    render w

/-- `EntryWrapper::entry` for a fallible entry renderer (the PSQL side,
where nested-cursor derivation can panic, modelled by `none`). -/
def entryGenO (sep : Char) (hf : Bool) (render : Fmt → Option Fmt) (w : Fmt) :
    Option Fmt :=
  if w.pretty then
    let w := if !hf then writeChar '\n' w else w
    let w := { w with indent := w.indent + 1 }
    match render w with
    | none => none
    | some w =>
      let w := writeChar '\n' (writeChar sep w)
      some { w with indent := w.indent - 1 }
  else
    let w := if hf then writeChar ' ' (writeChar sep w) else w
    render w

/- ## The algebraic value model

The value side of `AlgebraicValue`, restricted to the shapes the
serializer distinguishes: primitives, strings, byte arrays, arrays,
(named or positional) products and sum variants.  A positional (tuple)
product is a product all of whose field names are `none`, matching
`serialize_seq_product` delegating to `serialize_named_product` with no
names. -/

mutual
inductive AlgValue where
  | vBool (b : Bool)
  | vU64 (n : Nat)
  | vU256 (n : Nat)
  | vI64 (i : Int)
  | vStr (s : String)
  | vBytes (bs : List Nat)
  | vArray (es : AlgList)
  | vProduct (fs : FieldList)
  | vSum (tag : Nat) (name : Option String) (v : AlgValue)

inductive AlgList where
  | nil
  | cons (v : AlgValue) (rest : AlgList)

inductive FieldList where
  | nil
  | cons (name : Option String) (v : AlgValue) (rest : FieldList)
end

/-- Hex digit characters, lowercase, as produced by `hex::encode`. -/
def hexDigitChar (n : Nat) : Char :=
  if n < 10 then Char.ofNat ('0'.toNat + n) else Char.ofNat ('a'.toNat + (n - 10))

/-- `hex::encode`: two lowercase hex digits per byte, no separators. -/
def hexEncode (bs : List Nat) : String :=
  String.mk ((bs.map (fun b => [hexDigitChar (b / 16), hexDigitChar (b % 16)])).flatten)

/-- Big-endian byte decomposition (`u256::to_be_bytes` and friends):
`k` bytes, most significant first. -/
def toBeBytes : Nat → Nat → List Nat
  | 0, _ => []
  | k + 1, n => toBeBytes k (n / 256) ++ [n % 256]

/- ## Plain SATN serialization (`SatnFormatter` in satn.rs) -/

mutual
/-- `SatnFormatter`: primitives by decimal display, strings double-quoted
verbatim, bytes as `0x` hex, arrays via `ArrayFormatter`, products via
`NamedFormatter` (tuples delegate with no names), variants as a
single-entry parenthesised `name = value` (nothing printed for a missing
name — the numeric tag is ignored by `serialize_variant`). -/
def satnSer : AlgValue → Fmt → Fmt
  | .vBool b, w => writeStr (if b then "true" else "false") w
  | .vU64 n, w => writeStr (Nat.repr n) w
  | .vU256 n, w => writeStr (Nat.repr n) w
  | .vI64 i, w => writeStr (Int.repr i) w
  | .vStr s, w => writeStr ("\"" ++ s ++ "\"") w
  | .vBytes bs, w => writeStr ("0x" ++ hexEncode bs) w
  | .vArray es, w => writeStr ("]") (satnArr es (writeStr ("[") w) false)
  | .vProduct fs, w => writeStr (")") (satnNamed fs (writeStr ("(") w) false 0)
  | .vSum _tag name v, w =>
    writeStr (")")
      (entryGen ',' false
        (fun f => satnSer v (writeStr (" = ") (writeStr (name.getD "") f)))
        (writeStr ("(") w))

/-- `ArrayFormatter::serialize_element` folded over the elements. -/
def satnArr : AlgList → Fmt → Bool → Fmt
  | .nil, w, _ => w
  | .cons e es, w, hf => satnArr es (entryGen ',' hf (fun f => satnSer e f) w) true

/-- `NamedFormatter::serialize_element` folded over the fields: each entry
is `name = value`, the zero-based running index substituting a missing
name; the index advances on every field. -/
def satnNamed : FieldList → Fmt → Bool → Nat → Fmt
  | .nil, w, _, _ => w
  | .cons name v fs, w, hf, idx =>
    satnNamed fs
      (entryGen ',' hf
        (fun f => satnSer v (writeStr (" = ") (writeStr (name.getD (Nat.repr idx)) f)))
        w)
      true (idx + 1)
end

/-- Fresh flat-mode writer (`Writer::Normal`; the indent state is unused
in this mode). -/
def flat0 : Fmt := ⟨false, 0, false, []⟩

/-- Fresh pretty-mode writer (`IndentState { indent: 0, on_newline: true }`). -/
def pretty0 : Fmt := ⟨true, 0, true, []⟩

/-- `to_satn`: flat SATN rendering of a value as a string. -/
def satnStr (v : AlgValue) : String := String.mk (satnSer v flat0).out

/-- `to_satn_pretty`: indented SATN rendering of a value as a string. -/
def satnPrettyStr (v : AlgValue) : String := String.mk (satnSer v pretty0).out

/- ## The schema-type model

The algebraic type model is an external collaborator of the serializer:
satn.rs only queries it through `as_product`, the element list, and the
semantic predicates `is_identity` / `is_connection_id` / `is_timestamp` /
`is_time_duration` (on product types, on algebraic types, and on reserved
field-name tags).  Modelled from the spec: these predicates are opaque
schema queries, carried here as boolean fields of the product type;
special semantic types are product wrappers, so a non-product type
answers `false` to all of them. -/

mutual
inductive AlgebraicTy where
  /-- A product (tuple/record) type. -/
  | prodTy (p : ProductTy)
  /-- Any non-product type (primitive, array, sum, ...); the serializer
  never inspects it beyond `as_product` returning `None`. -/
  | otherTy

inductive ProductTy where
  | mk (elements : ElemList) (isId isConn isTs isDur : Bool)

inductive ElemList where
  | nil
  | cons (name : Option String) (ty : AlgebraicTy) (rest : ElemList)
end

/-- `ProductType::elements` access, `elements[i]` modelled fallibly. -/
def ElemList.get : ElemList → Nat → Option (Option String × AlgebraicTy)
  | .nil, _ => none
  | .cons name ty _, 0 => some (name, ty)
  | .cons _ _ rest, n + 1 => rest.get n

def ProductTy.elements : ProductTy → ElemList
  | .mk es _ _ _ _ => es

def ProductTy.is_identity : ProductTy → Bool
  | .mk _ b _ _ _ => b

def ProductTy.is_connection_id : ProductTy → Bool
  | .mk _ _ b _ _ => b

def ProductTy.is_timestamp : ProductTy → Bool
  | .mk _ _ _ b _ => b

def ProductTy.is_time_duration : ProductTy → Bool
  | .mk _ _ _ _ b => b

/-- `AlgebraicType::as_product`. -/
def AlgebraicTy.as_product : AlgebraicTy → Option ProductTy
  | .prodTy p => some p
  | .otherTy => none

def AlgebraicTy.is_identity : AlgebraicTy → Bool
  | .prodTy p => p.is_identity
  | .otherTy => false

def AlgebraicTy.is_connection_id : AlgebraicTy → Bool
  | .prodTy p => p.is_connection_id
  | .otherTy => false

def AlgebraicTy.is_timestamp : AlgebraicTy → Bool
  | .prodTy p => p.is_timestamp
  | .otherTy => false

def AlgebraicTy.is_time_duration : AlgebraicTy → Bool
  | .prodTy p => p.is_time_duration
  | .otherTy => false

/-- Modelled from the spec: the reserved field-name tag recognised by
`ProductType::is_identity_tag`. -/
def identityTag : String := "__identity__"

/-- Modelled from the spec: the reserved tag for connection identifiers. -/
def connectionIdTag : String := "__connection_id__"

/-- Modelled from the spec: the reserved tag for timestamps. -/
def timestampTag : String := "__timestamp_micros_since_unix_epoch__"

/-- Modelled from the spec: the reserved tag for time durations. -/
def timeDurationTag : String := "__time_duration_micros__"

def is_identity_tag (name : String) : Bool := name = identityTag

def is_connection_id_tag (name : String) : Bool := name = connectionIdTag

def is_timestamp_tag (name : String) : Bool := name = timestampTag

def is_time_duration_tag (name : String) : Bool := name = timeDurationTag

/-- `PsqlPrintFmt`: which format the SQL output uses for a field. -/
inductive PsqlPrintFmt where
  | Hex
  | Timestamp
  | Duration
  | Satn
deriving DecidableEq, Repr

/-- `PsqlPrintFmt::is_special`. -/
def PsqlPrintFmt.is_special : PsqlPrintFmt → Bool
  | .Satn => false
  | _ => true

/-- `PsqlType`: the schema cursor — enclosing record type, current field
(`ProductTypeElement`, a name/type pair) and its index. -/
structure PsqlType where
  tuple : ProductTy
  field : Option String × AlgebraicTy
  idx : Nat

/-- `PsqlType::use_fmt`: the per-field format decision.  Opaque-hex checks
first (record level, field-type level, name-tag level), then the
timestamp checks at the same three levels, then the duration checks;
otherwise plain. -/
def PsqlType.use_fmt (ty : PsqlType) (name : Option String) : PsqlPrintFmt :=
  if ty.tuple.is_identity || ty.tuple.is_connection_id
      || ty.field.2.is_identity || ty.field.2.is_connection_id
      || (name.map is_identity_tag).getD false
      || (name.map is_connection_id_tag).getD false then
    .Hex
  else if ty.tuple.is_timestamp || ty.field.2.is_timestamp
      || (name.map is_timestamp_tag).getD false then
    .Timestamp
  else if ty.tuple.is_time_duration || ty.field.2.is_time_duration
      || (name.map is_time_duration_tag).getD false then
    .Duration
  else
    .Satn

/-- Modelled from the spec: the human-readable calendar rendering of a
signed microsecond count since the Unix epoch (`Timestamp` `Display`, an
out-of-scope collaborator); modelled as an opaque injective rendering. -/
def timestampText (micros : Int) : String := "calendar:" ++ Int.repr micros

/-- Modelled from the spec: the human-readable elapsed-time rendering of a
signed microsecond span (`TimeDuration` `Display`, an out-of-scope
collaborator); modelled as an opaque injective rendering. -/
def durationText (micros : Int) : String := "elapsed:" ++ Int.repr micros

/- ## PSQL serialization (`PsqlFormatter` / `PsqlNamedFormatter`) -/

/-- The nested-cursor derivation in `PsqlNamedFormatter::serialize_element`:
if the cursor field's declared type is a product, re-seed to that product,
its element at the running index, and the running index (the slice access
`product.elements[self.f.idx]` panics out of bounds, modelled by `none`);
otherwise the cursor passes through unchanged. -/
def psqlDerive (ty : PsqlType) (idx : Nat) : Option PsqlType :=
  match ty.field.2.as_product with
  | some p =>
    match p.elements.get idx with
    | some fld => some ⟨p, fld, idx⟩
    | none => none
  | none => some ty

mutual
/-- `PsqlFormatter`: primitives, strings, bytes, arrays and variants
delegate to the plain formatter (array elements and variant payloads are
serialized by the plain `SatnFormatter`); `u256` consults the decision
and prints big-endian hex when `Hex`; `i64` prints timestamp or duration
text when so decided; products go to `PsqlNamedFormatter`. -/
def psqlSer : AlgValue → PsqlType → Fmt → Option Fmt
  | .vBool b, _, w => some (satnSer (.vBool b) w)
  | .vU64 n, _, w => some (satnSer (.vU64 n) w)
  | .vU256 n, ty, w =>
    match ty.use_fmt none with
    | .Hex => some (writeStr ("0x" ++ hexEncode (toBeBytes 32 n)) w)
    | _ => some (writeStr (Nat.repr n) w)
  | .vI64 i, ty, w =>
    match ty.use_fmt none with
    | .Duration => some (writeStr (durationText i) w)
    | .Timestamp => some (writeStr (timestampText i) w)
    | _ => some (writeStr (Int.repr i) w)
  | .vStr s, _, w => some (satnSer (.vStr s) w)
  | .vBytes bs, _, w => some (satnSer (.vBytes bs) w)
  | .vArray es, _, w => some (satnSer (.vArray es) w)
  | .vSum tag name v, _, w => some (satnSer (.vSum tag name v) w)
  | .vProduct fs, ty, w =>
    match psqlNamed fs ty w true false 0 .Satn with
    | none => none
    | some (w, last) => some (if last.is_special then w else writeStr (")") w)

/-- `PsqlNamedFormatter::serialize_element` folded over the fields.
`start` is the `(`-not-yet-written flag, `hf` the entry separator state,
`idx` the running element index (advanced only for non-special fields),
`last` the most recent format decision (`end` emits `)` only when it is
not special). -/
def psqlNamed :
    FieldList → PsqlType → Fmt → Bool → Bool → Nat → PsqlPrintFmt →
    Option (Fmt × PsqlPrintFmt)
  | .nil, _, w, _, _, _, last => some (w, last)
  | .cons name v fs, ty, w, start, hf, idx, _ =>
    let uf := ty.use_fmt name
    match
      entryGenO ',' hf
        (fun f =>
          let f :=
            if !uf.is_special then
              let f := if start then writeStr ("(") f else f
              writeStr (" = ") (writeStr (name.getD (Nat.repr ty.idx)) f)
            else f
          match psqlDerive ty idx with
          | some ty2 => psqlSer v ty2 f
          | none => none)
        w
    with
    | none => none
    | some w =>
      psqlNamed fs ty w (start && uf.is_special) true
        (if uf.is_special then idx else idx + 1) uf
end

/-- `fmt_psql` with a flat writer: the PSQL rendering of a value under a
seeded schema cursor, as a string (`none` models a panic). -/
def psqlStr (v : AlgValue) (ty : PsqlType) : Option String :=
  (psqlSer v ty flat0).map (fun w => String.mk w.out)

/- ## Well-formedness and plainness predicates for the PSQL recursion -/

mutual
/-- Sufficient condition for the PSQL serializer not to hit the
out-of-bounds slice access in the nested-cursor derivation: at every
product node, every derivation along the traversal (with the running
index advanced exactly as the formatter advances it) stays in bounds. -/
def wfVal : PsqlType → AlgValue → Bool
  | ty, .vProduct fs => wfFields ty 0 fs
  | _, _ => true

def wfFields : PsqlType → Nat → FieldList → Bool
  | _, _, .nil => true
  | ty, idx, .cons name v fs =>
    (match psqlDerive ty idx with
     | some ty2 => wfVal ty2 v
     | none => false) &&
    wfFields ty (if (ty.use_fmt name).is_special then idx else idx + 1) fs
end

mutual
/-- The hypothesis of the amended C4: every product reached is non-empty
with all fields named, every format decision along the traversal is
plain, and every nested-cursor derivation is in bounds. -/
def plainNamedB : PsqlType → AlgValue → Bool
  | ty, .vProduct fs =>
    (match fs with | .nil => false | .cons _ _ _ => true) && plainNamedFields ty 0 fs
  | ty, .vU256 _ => !(ty.use_fmt none).is_special
  | ty, .vI64 _ => !(ty.use_fmt none).is_special
  | _, _ => true

def plainNamedFields : PsqlType → Nat → FieldList → Bool
  | _, _, .nil => true
  | ty, idx, .cons name v fs =>
    name.isSome && !(ty.use_fmt name).is_special &&
    (match psqlDerive ty idx with
     | some ty2 => plainNamedB ty2 v
     | none => false) &&
    plainNamedFields ty (idx + 1) fs
end

/- ## Reference renderings used to state claims -/

/-- `", "`-joining of entry texts, separator between entries only. -/
def joinComma : List (List Char) → List Char
  | [] => []
  | x :: xs => x ++ (xs.map (fun y => ", ".data ++ y)).flatten

/-- The flat SATN entry texts of a named product, indexed from `idx`. -/
def namedEntriesOut : FieldList → Nat → List (List Char)
  | .nil, _ => []
  | .cons name v fs, idx =>
    ((name.getD (Nat.repr idx)).data ++ " = ".data ++ (satnSer v flat0).out)
      :: namedEntriesOut fs (idx + 1)

/-- A list of (optional name, u64 value) fields as a `FieldList`. -/
def natFields : List (Option String × Nat) → FieldList
  | [] => .nil
  | (name, n) :: fs => .cons name (.vU64 n) (natFields fs)

/-- A list of u64 values as an `AlgList`. -/
def natsToAlgList : List Nat → AlgList
  | [] => .nil
  | n :: ns => .cons (.vU64 n) (natsToAlgList ns)

/-- Reference rendering for the amended C1: flat PSQL output of a named
product of u64 fields under a cursor whose field type is not a product.
Separators between all entries; a plain field is tagged (`(` first, just
before the first plain field's tag; the missing-name fallback is the
cursor's fixed seeded index); a special field is emitted bare. -/
def psqlRefGo (ty : PsqlType) : List (Option String × Nat) → Bool → Bool → List Char
  | [], _, _ => []
  | (name, n) :: fs, start, hf =>
    let uf := ty.use_fmt name
    (if hf then ", ".data else []) ++
    (if !uf.is_special then
        (if start then "(".data else []) ++
        (name.getD (Nat.repr ty.idx)).data ++ " = ".data
      else []) ++
    (Nat.repr n).data ++
    psqlRefGo ty fs (start && uf.is_special) true

/-- The format decision left in `use_fmt` after the fields are processed,
starting from `last`: the decision of the last field, if any. -/
def psqlRefEndGo (ty : PsqlType) (last : PsqlPrintFmt) :
    List (Option String × Nat) → PsqlPrintFmt
  | [] => last
  | (name, _) :: fs => psqlRefEndGo ty (ty.use_fmt name) fs

/-- The format decision of the last field (`Satn` for an empty record):
`PsqlNamedFormatter::end` emits `)` only when this is not special. -/
def psqlRefEnd (ty : PsqlType) (fields : List (Option String × Nat)) : PsqlPrintFmt :=
  psqlRefEndGo ty .Satn fields

/- ## Concrete schema instances for the counterexamples -/

/-- A product type with no elements and no semantic flags. -/
def emptyPlainTy : ProductTy := .mk .nil false false false false

/-- A cursor over a plain record whose current field has a non-product
type; nothing about it is semantically special. -/
def tyPlain : PsqlType := ⟨emptyPlainTy, (some "f", .otherTy), 0⟩

/-- A one-element plain product type with a non-product element. -/
def oneFieldTy : ProductTy :=
  .mk (.cons none .otherTy .nil) false false false false

/-- A two-element plain product type: element 0 is non-product, element 1
is the one-element product `oneFieldTy`. -/
def twoFieldTy : ProductTy :=
  .mk (.cons (some "a") .otherTy (.cons none (.prodTy oneFieldTy) .nil))
    false false false false

/-- A cursor seeded at a value of type `twoFieldTy`. -/
def tyNested : PsqlType := ⟨emptyPlainTy, (some "row0", .prodTy twoFieldTy), 0⟩

/-- The nested value for the C2 counterexample: an outer plain record
`(a = 1, <inner>)` whose second, unnamed field is the one-field record
`(7)`. -/
def nestedVal : AlgValue :=
  .vProduct (.cons (some "a") (.vU64 1)
    (.cons none (.vProduct (.cons none (.vU64 7) .nil)) .nil))

/-- The timestamp product type: one element, record-level timestamp tag. -/
def tsProductTy : ProductTy :=
  .mk (.cons (some timestampTag) .otherTy .nil) false false true false

/-- An untagged outer record type whose single field `inner` has the
timestamp product type. -/
def outerWithTsTy : ProductTy :=
  .mk (.cons (some "inner") (.prodTy tsProductTy) .nil) false false false false

/-- Cursor seeded at a value of type `outerWithTsTy`. -/
def tyOuterTs : PsqlType := ⟨emptyPlainTy, (some "o", .prodTy outerWithTsTy), 0⟩

/-- Outer untagged record holding one field `inner` that is itself a
timestamp-tagged record wrapping the raw microsecond count 5. -/
def outerTsVal : AlgValue :=
  .vProduct (.cons (some "inner")
    (.vProduct (.cons (some timestampTag) (.vI64 5) .nil)) .nil)

/-- The C10 counterexample schema: element 0 of the outer product has a
one-element product type, element 1 is non-product. -/
def oobOuterTy : ProductTy :=
  .mk (.cons (some "a") (.prodTy oneFieldTy) (.cons (some "b") .otherTy .nil))
    false false false false

/-- Cursor seeded at a value of type `oobOuterTy`. -/
def tyOob : PsqlType := ⟨emptyPlainTy, (some "row0", .prodTy oobOuterTy), 0⟩

/-- The C10 counterexample value: the first field is special by the
reserved timestamp name tag (so the running index does not advance), the
second field is a two-field record; its derivation then indexes the
one-element product `oneFieldTy` at 1, out of bounds. -/
def oobVal : AlgValue :=
  .vProduct (.cons (some timestampTag) (.vU64 0)
    (.cons (some "b")
      (.vProduct (.cons (some "p") (.vU64 1) (.cons (some "q") (.vU64 2) .nil)))
      .nil))

/- ## The log text printer (`exec` in logs.rs) -/

/-- `LogLevel`. -/
inductive LogLevel where
  | Error
  | Warn
  | Info
  | Debug
  | Trace
  | Panic
deriving DecidableEq, Repr

/-- The level label chosen by the match in `exec`. -/
def levelName : LogLevel → String
  | .Error => "ERROR"
  | .Warn => "WARN"
  | .Info => "INFO"
  | .Debug => "DEBUG"
  | .Trace => "TRACE"
  | .Panic => "PANIC"

/-- `format!("{level:>5}")`: right-align to width five. -/
def padLeft5 (s : String) : String :=
  String.mk (List.replicate (5 - s.length) ' ') ++ s

/-- `BacktraceFrame`. -/
structure BacktraceFrame where
  module_name : Option String
  func_name : Option String

/-- `Record`: one deserialized log line.  The timestamp is optional (the
source keeps `Option` "until a past format version ages out"), so an
absent timestamp is a valid record by construction; `ts` holds the
`{ts:?}` rendering of the parsed time, whose exact text is out of scope. -/
structure LogRecord where
  ts : Option String
  level : LogLevel
  target : Option String
  filename : Option String
  line_number : Option Nat
  message : String
  trace : Option (List BacktraceFrame)

/-- One backtrace frame as printed by the trace loop (colour control is
terminal decoration, not text, and is not modelled). -/
def frameText (fr : BacktraceFrame) : String :=
  "    in " ++
  (match fr.module_name with
   | some m => m ++ " :: "
   | none => "") ++
  (match fr.func_name with
   | some f => f ++ "\n"
   | none => "")

/-- The text printed for one record by the body of the read loop in
`exec` (text format): optional dimmed timestamp followed by a space, the
right-aligned level and `": "`, the optional `filename[:line]`, `": "`,
the message, a newline, then the backtrace frames. -/
def printRecord (r : LogRecord) : String :=
  (match r.ts with
   | some t => t ++ " "
   | none => "") ++
  padLeft5 (levelName r.level) ++ ": " ++
  (match r.filename with
   | some fn => fn ++ (match r.line_number with
       | some l => ":" ++ Nat.repr l
       | none => "")
   | none => "") ++
  ": " ++ r.message ++ "\n" ++
  (match r.trace with
   | some frames => String.join (frames.map frameText)
   | none => "")

/- ## Writer lemmas -/

theorem writeStr_flat (s : String) (i : Nat) (b : Bool) (o : List Char) :
    writeStr s ⟨false, i, b, o⟩ = ⟨false, i, b, o ++ s.data⟩ := by
  simp [writeStr]

theorem writeChar_flat (c : Char) (i : Nat) (b : Bool) (o : List Char) :
    writeChar c ⟨false, i, b, o⟩ = ⟨false, i, b, o ++ [c]⟩ := by
  simp [writeChar, writeStr_flat]

theorem splitInc_eq_nil {cs : List Char} (h : splitInc cs = []) : cs = [] := by
  cases cs with
  | nil => rfl
  | cons c cs =>
    rw [splitInc] at h
    split at h
    · simp at h
    · split at h <;> simp_all

theorem splitInc_head_ne_nil {cs : List Char} {g : List Char} {gs : List (List Char)}
    (h : splitInc cs = g :: gs) : g ≠ [] := by
  cases cs with
  | nil => simp [splitInc] at h
  | cons c cs =>
    rw [splitInc] at h
    split at h
    · rw [List.cons.injEq] at h
      rw [← h.1]
      simp
    · split at h <;>
      · rw [List.cons.injEq] at h
        rw [← h.1]
        simp

theorem gEndsNl_cons (c : Char) {g : List Char} (h : g ≠ []) :
    gEndsNl (c :: g) = gEndsNl g := by
  cases g with
  | nil => exact absurd rfl h
  | cons d ds => simp [gEndsNl, List.getLast?_cons_cons]

theorem writeFragsGo_splitInc (d : Nat) :
    ∀ (cs : List Char) (b : Bool),
      writeFragsGo d b (splitInc cs) = specIndented (indentChars d) b cs := by
  intro cs
  induction cs with
  | nil => intro b; rfl
  | cons c cs ih =>
    intro b
    by_cases hc : c = '\n'
    · subst hc
      rw [splitInc, if_pos rfl, writeFragsGo, specIndented]
      have hend : gEndsNl ['\n'] = true := by decide
      rw [hend, ih true]
      simp
    · cases h : splitInc cs with
      | nil =>
        have hcs := splitInc_eq_nil h
        subst hcs
        have hsp : splitInc [c] = [[c]] := by rw [splitInc, if_neg hc]; rfl
        rw [hsp, writeFragsGo, writeFragsGo]
        have hend : gEndsNl [c] = false := by
          simp [gEndsNl, List.getLast?]
          exact hc
        rw [hend, specIndented, decide_eq_false hc, specIndented]
        simp
      | cons g gs =>
        have hg := splitInc_head_ne_nil h
        have hsp : splitInc (c :: cs) = (c :: g) :: gs := by
          rw [splitInc, if_neg hc, h]
        have ihcs := ih false
        rw [h, writeFragsGo] at ihcs
        rw [hsp, writeFragsGo, gEndsNl_cons c hg, specIndented, decide_eq_false hc]
        rw [Prod.ext_iff] at ihcs
        simp at ihcs
        simp [← ihcs.1, ihcs.2]

theorem indentChars_length (d : Nat) : (indentChars d).length = 4 * d := by
  induction d with
  | zero => rfl
  | succ d ih => rw [indentChars]; simp [ih]; omega

/-- C6 — the indented-mode writer emits indentation (exactly depth × 4
spaces) exactly once per line, immediately after a newline character (or
at the very start when already on a fresh line) and before the following
fragment, and nowhere else — its output coincides with the canonical
once-per-line interleaving `specIndented`; in flat mode every fragment is
forwarded verbatim with no indentation and no state change. -/
theorem satn_c6_writer_indentation :
    (∀ (s : String) (i : Nat) (b : Bool) (o : List Char),
      writeStr s ⟨false, i, b, o⟩ = ⟨false, i, b, o ++ s.data⟩) ∧
    (∀ (s : String) (i : Nat) (b : Bool) (o : List Char),
      writeStr s ⟨true, i, b, o⟩ =
        ⟨true, i, (specIndented (indentChars i) b s.data).2,
          o ++ (specIndented (indentChars i) b s.data).1⟩) ∧
    (∀ d : Nat, (indentChars d).length = 4 * d) := by
  refine ⟨writeStr_flat, ?_, indentChars_length⟩
  intro s i b o
  rw [writeStr]
  simp only [writeFragsGo_splitInc]
  rfl

/- ## Decimal-display character lemmas -/

theorem digitChar_isDigit {n : Nat} (h : n < 10) : n.digitChar.isDigit = true := by
  interval_cases n <;> decide

theorem toDigitsCore_isDigit :
    ∀ (fuel n : Nat) (acc : List Char),
      (∀ c ∈ acc, c.isDigit = true) →
      ∀ c ∈ Nat.toDigitsCore 10 fuel n acc, c.isDigit = true := by
  intro fuel
  induction fuel with
  | zero => intro n acc hacc c hc; rw [Nat.toDigitsCore] at hc; exact hacc c hc
  | succ fuel ih =>
    intro n acc hacc c hc
    rw [Nat.toDigitsCore] at hc
    split at hc
    · rcases List.mem_cons.mp hc with h | h
      · subst h; exact digitChar_isDigit (Nat.mod_lt _ (by norm_num))
      · exact hacc c h
    · refine ih _ _ ?_ c hc
      intro d hd
      rcases List.mem_cons.mp hd with h | h
      · subst h; exact digitChar_isDigit (Nat.mod_lt _ (by norm_num))
      · exact hacc d h

theorem toDigitsCore_length :
    ∀ (fuel n : Nat) (acc : List Char),
      acc.length ≤ (Nat.toDigitsCore 10 fuel n acc).length := by
  intro fuel
  induction fuel with
  | zero => intro n acc; rw [Nat.toDigitsCore]
  | succ fuel ih =>
    intro n acc
    rw [Nat.toDigitsCore]
    split
    · simp
    · calc acc.length ≤ (acc.length + 1) := by omega
        _ = ((n % 10).digitChar :: acc).length := by simp
        _ ≤ _ := ih _ _

theorem toDigitsCore_length_lt (fuel n : Nat) (acc : List Char) :
    acc.length < (Nat.toDigitsCore 10 (fuel + 1) n acc).length := by
  rw [Nat.toDigitsCore]
  split
  · simp
  · have h := toDigitsCore_length fuel (n / 10) ((n % 10).digitChar :: acc)
    simp at h
    omega

theorem natRepr_data_isDigit (n : Nat) :
    ∀ c ∈ (Nat.repr n).data, c.isDigit = true := by
  intro c hc
  have hd : (Nat.repr n).data = Nat.toDigits 10 n := rfl
  rw [hd, Nat.toDigits] at hc
  exact toDigitsCore_isDigit _ _ [] (by simp) c hc

theorem natRepr_data_ne_nil (n : Nat) : (Nat.repr n).data ≠ [] := by
  have hd : (Nat.repr n).data = Nat.toDigits 10 n := rfl
  rw [hd, Nat.toDigits]
  intro h
  have h1 := toDigitsCore_length_lt n n []
  rw [h] at h1
  simp at h1

theorem natRepr_no_nl (n : Nat) : ∀ c ∈ (Nat.repr n).data, c ≠ '\n' := by
  intro c hc he
  have h := natRepr_data_isDigit n c hc
  rw [he] at h
  exact absurd h (by decide)
theorem splitInc_single :
    ∀ {cs : List Char}, cs ≠ [] → (∀ c ∈ cs, c ≠ '\n') → splitInc cs = [cs] := by
  intro cs
  induction cs with
  | nil => intro h; exact absurd rfl h
  | cons c cs ih =>
    intro _ hnl
    have hc : c ≠ '\n' := hnl c (by simp)
    rw [splitInc, if_neg hc]
    cases hcs : cs with
    | nil => simp [splitInc]
    | cons d ds =>
      rw [← hcs, ih (by simp [hcs]) (fun x hx => hnl x (by simp [hx]))]

theorem gEndsNl_of_no_nl {cs : List Char} (hnl : ∀ c ∈ cs, c ≠ '\n') :
    gEndsNl cs = false := by
  cases cs with
  | nil => rfl
  | cons c cs =>
    rw [gEndsNl]
    have h1 : (c :: cs).getLast? = some ((c :: cs).getLast (by simp)) :=
      List.getLast?_eq_getLast _ _
    rw [h1]
    simp
    exact hnl _ (List.getLast_mem _)

theorem writeStr_token_pretty (s : String) (hne : s.data ≠ [])
    (hnl : ∀ c ∈ s.data, c ≠ '\n') (d : Nat) (b : Bool) (o : List Char) :
    writeStr s ⟨true, d, b, o⟩ =
      ⟨true, d, false, o ++ (if b then indentChars d else []) ++ s.data⟩ := by
  rw [writeStr]
  simp only [splitInc_single hne hnl]
  rw [writeFragsGo, writeFragsGo, gEndsNl_of_no_nl hnl]
  simp

theorem writeChar_token_pretty (c : Char) (hc : c ≠ '\n') (d : Nat) (b : Bool)
    (o : List Char) :
    writeChar c ⟨true, d, b, o⟩ =
      ⟨true, d, false, o ++ (if b then indentChars d else []) ++ [c]⟩ := by
  rw [writeChar]
  exact writeStr_token_pretty _ (by simp) (by simpa) d b o

theorem writeChar_nl_pretty (d : Nat) (b : Bool) (o : List Char) :
    writeChar '\n' ⟨true, d, b, o⟩ =
      ⟨true, d, true, o ++ (if b then indentChars d else []) ++ ['\n']⟩ := by
  rw [writeChar, writeStr]
  have h1 : splitInc (String.mk ['\n']).data = [['\n']] := by decide
  simp only [h1]
  rw [writeFragsGo, writeFragsGo]
  have h2 : gEndsNl ['\n'] = true := by decide
  rw [h2]
  simp

/- ## Pretty-mode array rendering (C7) -/

theorem satnArr_u64_pretty (d : Nat) :
    ∀ (ns : List Nat) (o : List Char),
      satnArr (natsToAlgList ns) ⟨true, d, true, o⟩ true =
        ⟨true, d, true,
          o ++ (ns.map fun n =>
            indentChars (d + 1) ++ (Nat.repr n).data ++ ",\n".data).flatten⟩ := by
  intro ns
  induction ns with
  | nil => intro o; simp [natsToAlgList, satnArr]
  | cons n ns ih =>
    intro o
    rw [natsToAlgList, satnArr, entryGen]
    simp only [Bool.not_true, Bool.false_eq_true, if_false, satnSer]
    rw [writeStr_token_pretty _ (natRepr_data_ne_nil n) (natRepr_no_nl n)]
    rw [writeChar_token_pretty ',' (by decide)]
    rw [writeChar_nl_pretty]
    simp only [if_true, if_false, Bool.false_eq_true, Nat.add_sub_cancel,
      List.append_nil]
    rw [ih]
    simp

theorem satnSer_u64_array_pretty :
    ∀ (d : Nat) (b : Bool) (o : List Char) (ns : List Nat),
      satnSer (.vArray (natsToAlgList ns)) ⟨true, d, b, o⟩ =
        ⟨true, d, false,
          o ++ (if b then indentChars d else []) ++ "[".data ++
          (match ns with
           | [] => []
           | _ :: _ =>
             "\n".data ++
             (ns.map fun n =>
               indentChars (d + 1) ++ (Nat.repr n).data ++ ",\n".data).flatten ++
             indentChars d) ++ "]".data⟩ := by
  intro d b o ns
  rw [satnSer]
  rw [writeStr_token_pretty ("[") (by decide) (by decide)]
  cases ns with
  | nil =>
    rw [natsToAlgList, satnArr]
    rw [writeStr_token_pretty ("]") (by decide) (by decide)]
    simp
  | cons n ns =>
    rw [natsToAlgList, satnArr, entryGen]
    simp only [Bool.not_false, if_true, satnSer]
    rw [writeChar_nl_pretty]
    simp only [Bool.false_eq_true, if_false, List.append_nil]
    rw [writeStr_token_pretty _ (natRepr_data_ne_nil n) (natRepr_no_nl n)]
    rw [writeChar_token_pretty ',' (by decide)]
    rw [writeChar_nl_pretty]
    simp only [if_true, if_false, Bool.false_eq_true, Nat.add_sub_cancel,
      List.append_nil]
    rw [satnArr_u64_pretty]
    rw [writeStr_token_pretty ("]") (by decide) (by decide)]
    simp

/-- C7 — in pretty mode the entry machinery writes a newline before the
first entry only, and for every entry (including the last) renders it one
indent level deeper followed by the separator and a newline, restoring
the depth afterwards: an array of numbers at depth `d` renders as `[`,
then (if non-empty) a newline, one line per element at depth `d + 1`
ending in a trailing comma, and `]` back at depth `d`; concretely a
three-element array renders as three indented lines, each with a
trailing comma, including the last. -/
theorem satn_c7_pretty_entry_layout :
    (∀ (d : Nat) (b : Bool) (o : List Char) (ns : List Nat),
      satnSer (.vArray (natsToAlgList ns)) ⟨true, d, b, o⟩ =
        ⟨true, d, false,
          o ++ (if b then indentChars d else []) ++ "[".data ++
          (match ns with
           | [] => []
           | _ :: _ =>
             "\n".data ++
             (ns.map fun n =>
               indentChars (d + 1) ++ (Nat.repr n).data ++ ",\n".data).flatten ++
             indentChars d) ++ "]".data⟩) ∧
    satnPrettyStr (.vArray (natsToAlgList [1, 2, 3])) = "[\n    1,\n    2,\n    3,\n]" := by
  exact ⟨satnSer_u64_array_pretty, by decide⟩

/- ## Flat-mode composition lemmas -/

theorem writeStr_flat0 (s : String) : writeStr s flat0 = ⟨false, 0, false, s.data⟩ := by
  rw [show flat0 = ⟨false, 0, false, []⟩ from rfl, writeStr_flat]
  simp

theorem entryGen_flat (sep : Char) (hf : Bool) (render : Fmt → Fmt) (i : Nat)
    (b : Bool) (o : List Char) :
    entryGen sep hf render ⟨false, i, b, o⟩ =
      render ⟨false, i, b, o ++ (if hf then [sep, ' '] else [])⟩ := by
  rw [entryGen]
  cases hf <;> simp [writeChar_flat]

theorem entryGen_flat0 (sep : Char) (hf : Bool) (render : Fmt → Fmt) :
    entryGen sep hf render flat0 =
      render ⟨false, 0, false, if hf then [sep, ' '] else []⟩ := by
  rw [show flat0 = ⟨false, 0, false, []⟩ from rfl, entryGen_flat]
  simp

theorem satn_flat_shift :
    (∀ (v : AlgValue) (i : Nat) (b : Bool) (o : List Char),
      satnSer v ⟨false, i, b, o⟩ = ⟨false, i, b, o ++ (satnSer v flat0).out⟩) ∧
    (∀ (es : AlgList) (hf : Bool) (i : Nat) (b : Bool) (o : List Char),
      satnArr es ⟨false, i, b, o⟩ hf = ⟨false, i, b, o ++ (satnArr es flat0 hf).out⟩) ∧
    (∀ (fs : FieldList) (hf : Bool) (idx i : Nat) (b : Bool) (o : List Char),
      satnNamed fs ⟨false, i, b, o⟩ hf idx =
        ⟨false, i, b, o ++ (satnNamed fs flat0 hf idx).out⟩) := by
  have hB : ∀ (b : Bool) (i : Nat) (b2 : Bool) (o : List Char),
      satnSer (.vBool b) ⟨false, i, b2, o⟩ =
        ⟨false, i, b2, o ++ (satnSer (.vBool b) flat0).out⟩ := by
    intro b i b2 o; simp [satnSer, writeStr_flat, writeStr_flat0]
  have hU64 : ∀ (n : Nat) (i : Nat) (b : Bool) (o : List Char),
      satnSer (.vU64 n) ⟨false, i, b, o⟩ =
        ⟨false, i, b, o ++ (satnSer (.vU64 n) flat0).out⟩ := by
    intro n i b o; simp [satnSer, writeStr_flat, writeStr_flat0]
  have hU256 : ∀ (n : Nat) (i : Nat) (b : Bool) (o : List Char),
      satnSer (.vU256 n) ⟨false, i, b, o⟩ =
        ⟨false, i, b, o ++ (satnSer (.vU256 n) flat0).out⟩ := by
    intro n i b o; simp [satnSer, writeStr_flat, writeStr_flat0]
  have hI64 : ∀ (x : Int) (i : Nat) (b : Bool) (o : List Char),
      satnSer (.vI64 x) ⟨false, i, b, o⟩ =
        ⟨false, i, b, o ++ (satnSer (.vI64 x) flat0).out⟩ := by
    intro x i b o; simp [satnSer, writeStr_flat, writeStr_flat0]
  have hStr : ∀ (s : String) (i : Nat) (b : Bool) (o : List Char),
      satnSer (.vStr s) ⟨false, i, b, o⟩ =
        ⟨false, i, b, o ++ (satnSer (.vStr s) flat0).out⟩ := by
    intro s i b o; simp [satnSer, writeStr_flat, writeStr_flat0]
  have hBytes : ∀ (bs : List Nat) (i : Nat) (b : Bool) (o : List Char),
      satnSer (.vBytes bs) ⟨false, i, b, o⟩ =
        ⟨false, i, b, o ++ (satnSer (.vBytes bs) flat0).out⟩ := by
    intro bs i b o; simp [satnSer, writeStr_flat, writeStr_flat0]
  have hArr : ∀ (es : AlgList),
      (∀ (hf : Bool) (i : Nat) (b : Bool) (o : List Char),
        satnArr es ⟨false, i, b, o⟩ hf = ⟨false, i, b, o ++ (satnArr es flat0 hf).out⟩) →
      ∀ (i : Nat) (b : Bool) (o : List Char),
        satnSer (.vArray es) ⟨false, i, b, o⟩ =
          ⟨false, i, b, o ++ (satnSer (.vArray es) flat0).out⟩ := by
    intro es ihe i b o
    simp [satnSer, writeStr_flat, writeStr_flat0, ihe]
  have hProd : ∀ (fs : FieldList),
      (∀ (hf : Bool) (idx i : Nat) (b : Bool) (o : List Char),
        satnNamed fs ⟨false, i, b, o⟩ hf idx =
          ⟨false, i, b, o ++ (satnNamed fs flat0 hf idx).out⟩) →
      ∀ (i : Nat) (b : Bool) (o : List Char),
        satnSer (.vProduct fs) ⟨false, i, b, o⟩ =
          ⟨false, i, b, o ++ (satnSer (.vProduct fs) flat0).out⟩ := by
    intro fs ihf i b o
    simp [satnSer, writeStr_flat, writeStr_flat0, ihf]
  have hSum : ∀ (tag : Nat) (name : Option String) (v : AlgValue),
      (∀ (i : Nat) (b : Bool) (o : List Char),
        satnSer v ⟨false, i, b, o⟩ = ⟨false, i, b, o ++ (satnSer v flat0).out⟩) →
      ∀ (i : Nat) (b : Bool) (o : List Char),
        satnSer (.vSum tag name v) ⟨false, i, b, o⟩ =
          ⟨false, i, b, o ++ (satnSer (.vSum tag name v) flat0).out⟩ := by
    intro tag name v ihv i b o
    simp [satnSer, entryGen_flat, entryGen_flat0, writeStr_flat, writeStr_flat0, ihv]
  have hLNil : ∀ (hf : Bool) (i : Nat) (b : Bool) (o : List Char),
      satnArr .nil ⟨false, i, b, o⟩ hf =
        ⟨false, i, b, o ++ (satnArr .nil flat0 hf).out⟩ := by
    intro hf i b o; simp [satnArr, flat0]
  have hLCons : ∀ (v : AlgValue) (es : AlgList),
      (∀ (i : Nat) (b : Bool) (o : List Char),
        satnSer v ⟨false, i, b, o⟩ = ⟨false, i, b, o ++ (satnSer v flat0).out⟩) →
      (∀ (hf : Bool) (i : Nat) (b : Bool) (o : List Char),
        satnArr es ⟨false, i, b, o⟩ hf = ⟨false, i, b, o ++ (satnArr es flat0 hf).out⟩) →
      ∀ (hf : Bool) (i : Nat) (b : Bool) (o : List Char),
        satnArr (.cons v es) ⟨false, i, b, o⟩ hf =
          ⟨false, i, b, o ++ (satnArr (.cons v es) flat0 hf).out⟩ := by
    intro v es ihv ihe hf i b o
    simp [satnArr, entryGen_flat, entryGen_flat0, writeStr_flat, writeStr_flat0,
      ihv, ihe]
  have hFNil : ∀ (hf : Bool) (idx i : Nat) (b : Bool) (o : List Char),
      satnNamed .nil ⟨false, i, b, o⟩ hf idx =
        ⟨false, i, b, o ++ (satnNamed .nil flat0 hf idx).out⟩ := by
    intro hf idx i b o; simp [satnNamed, flat0]
  have hFCons : ∀ (name : Option String) (v : AlgValue) (fs : FieldList),
      (∀ (i : Nat) (b : Bool) (o : List Char),
        satnSer v ⟨false, i, b, o⟩ = ⟨false, i, b, o ++ (satnSer v flat0).out⟩) →
      (∀ (hf : Bool) (idx i : Nat) (b : Bool) (o : List Char),
        satnNamed fs ⟨false, i, b, o⟩ hf idx =
          ⟨false, i, b, o ++ (satnNamed fs flat0 hf idx).out⟩) →
      ∀ (hf : Bool) (idx i : Nat) (b : Bool) (o : List Char),
        satnNamed (.cons name v fs) ⟨false, i, b, o⟩ hf idx =
          ⟨false, i, b, o ++ (satnNamed (.cons name v fs) flat0 hf idx).out⟩ := by
    intro name v fs ihv ihf hf idx i b o
    simp [satnNamed, entryGen_flat, entryGen_flat0, writeStr_flat, writeStr_flat0,
      ihv, ihf]
  exact
    ⟨fun v => @AlgValue.rec (fun v => ∀ (i : Nat) (b : Bool) (o : List Char),
          satnSer v ⟨false, i, b, o⟩ = ⟨false, i, b, o ++ (satnSer v flat0).out⟩)
      (fun es => ∀ (hf : Bool) (i : Nat) (b : Bool) (o : List Char),
          satnArr es ⟨false, i, b, o⟩ hf = ⟨false, i, b, o ++ (satnArr es flat0 hf).out⟩)
      (fun fs => ∀ (hf : Bool) (idx i : Nat) (b : Bool) (o : List Char),
          satnNamed fs ⟨false, i, b, o⟩ hf idx =
            ⟨false, i, b, o ++ (satnNamed fs flat0 hf idx).out⟩)
      hB hU64 hU256 hI64 hStr hBytes hArr hProd hSum hLNil hLCons hFNil hFCons v,
    fun es => @AlgList.rec (fun v => ∀ (i : Nat) (b : Bool) (o : List Char),
          satnSer v ⟨false, i, b, o⟩ = ⟨false, i, b, o ++ (satnSer v flat0).out⟩)
      (fun es => ∀ (hf : Bool) (i : Nat) (b : Bool) (o : List Char),
          satnArr es ⟨false, i, b, o⟩ hf = ⟨false, i, b, o ++ (satnArr es flat0 hf).out⟩)
      (fun fs => ∀ (hf : Bool) (idx i : Nat) (b : Bool) (o : List Char),
          satnNamed fs ⟨false, i, b, o⟩ hf idx =
            ⟨false, i, b, o ++ (satnNamed fs flat0 hf idx).out⟩)
      hB hU64 hU256 hI64 hStr hBytes hArr hProd hSum hLNil hLCons hFNil hFCons es,
    fun fs => @FieldList.rec (fun v => ∀ (i : Nat) (b : Bool) (o : List Char),
          satnSer v ⟨false, i, b, o⟩ = ⟨false, i, b, o ++ (satnSer v flat0).out⟩)
      (fun es => ∀ (hf : Bool) (i : Nat) (b : Bool) (o : List Char),
          satnArr es ⟨false, i, b, o⟩ hf = ⟨false, i, b, o ++ (satnArr es flat0 hf).out⟩)
      (fun fs => ∀ (hf : Bool) (idx i : Nat) (b : Bool) (o : List Char),
          satnNamed fs ⟨false, i, b, o⟩ hf idx =
            ⟨false, i, b, o ++ (satnNamed fs flat0 hf idx).out⟩)
      hB hU64 hU256 hI64 hStr hBytes hArr hProd hSum hLNil hLCons hFNil hFCons fs⟩

/- ## Variant and named-product rendering in flat SATN (C3, C8) -/

/-- C3 counterexample — an untagged index-3 variant wrapping 5 renders as
`"( = 5)"`, not `"(3 = 5)"`: `serialize_variant` ignores the numeric tag
and prints nothing in place of a missing name. -/
theorem satn_c3_counterexample :
    satnStr (.vSum 3 none (.vU64 5)) = "( = 5)" ∧ "( = 5)" ≠ "(3 = 5)" :=
  ⟨by decide, by decide⟩

/-- C3 (amended) — a variant with a tag name renders as
`'(' ++ name ++ ' = ' ++ value ++ ')'`; a variant with no tag name
renders with nothing substituted for the name (`'(' ++ ' = ' ++ value ++
')'`): the numeric variant index is never printed. -/
theorem satn_c3_variant_format :
    ∀ (tag : Nat) (nm : Option String) (v : AlgValue) (i : Nat) (b : Bool)
      (o : List Char),
      satnSer (.vSum tag nm v) ⟨false, i, b, o⟩ =
        ⟨false, i, b,
          o ++ "(".data ++ (nm.getD "").data ++ " = ".data ++
            (satnSer v flat0).out ++ ")".data⟩ := by
  intro tag nm v i b o
  simp [satnSer, entryGen_flat, writeStr_flat, satn_flat_shift.1 v]

theorem satnNamed_entries :
    ∀ (fs : FieldList) (idx i : Nat) (b : Bool) (o : List Char),
      (satnNamed fs ⟨false, i, b, o⟩ true idx =
        ⟨false, i, b,
          o ++ ((namedEntriesOut fs idx).map (fun e => ", ".data ++ e)).flatten⟩) ∧
      (satnNamed fs ⟨false, i, b, o⟩ false idx =
        ⟨false, i, b, o ++ joinComma (namedEntriesOut fs idx)⟩) := by
  have hFNil : ∀ (idx i : Nat) (b : Bool) (o : List Char),
      (satnNamed .nil ⟨false, i, b, o⟩ true idx =
        ⟨false, i, b,
          o ++ ((namedEntriesOut .nil idx).map (fun e => ", ".data ++ e)).flatten⟩) ∧
      (satnNamed .nil ⟨false, i, b, o⟩ false idx =
        ⟨false, i, b, o ++ joinComma (namedEntriesOut .nil idx)⟩) := by
    intro idx i b o
    simp [satnNamed, namedEntriesOut, joinComma]
  have hFCons : ∀ (name : Option String) (v : AlgValue) (fs : FieldList),
      (∀ (idx i : Nat) (b : Bool) (o : List Char),
        (satnNamed fs ⟨false, i, b, o⟩ true idx =
          ⟨false, i, b,
            o ++ ((namedEntriesOut fs idx).map (fun e => ", ".data ++ e)).flatten⟩) ∧
        (satnNamed fs ⟨false, i, b, o⟩ false idx =
          ⟨false, i, b, o ++ joinComma (namedEntriesOut fs idx)⟩)) →
      ∀ (idx i : Nat) (b : Bool) (o : List Char),
        (satnNamed (.cons name v fs) ⟨false, i, b, o⟩ true idx =
          ⟨false, i, b,
            o ++ ((namedEntriesOut (.cons name v fs) idx).map
              (fun e => ", ".data ++ e)).flatten⟩) ∧
        (satnNamed (.cons name v fs) ⟨false, i, b, o⟩ false idx =
          ⟨false, i, b, o ++ joinComma (namedEntriesOut (.cons name v fs) idx)⟩) := by
    intro name v fs ihf idx i b o
    constructor
    · rw [satnNamed, entryGen_flat]
      simp only [if_true]
      rw [writeStr_flat, writeStr_flat, satn_flat_shift.1 v, (ihf (idx + 1) i b _).1]
      simp [namedEntriesOut, joinComma]
    · rw [satnNamed, entryGen_flat]
      simp only [Bool.false_eq_true, if_false]
      rw [writeStr_flat, writeStr_flat, satn_flat_shift.1 v, (ihf (idx + 1) i b _).1]
      simp [namedEntriesOut, joinComma]
  exact fun fs =>
    @FieldList.rec (fun _ => True) (fun _ => True)
      (fun fs => ∀ (idx i : Nat) (b : Bool) (o : List Char),
        (satnNamed fs ⟨false, i, b, o⟩ true idx =
          ⟨false, i, b,
            o ++ ((namedEntriesOut fs idx).map (fun e => ", ".data ++ e)).flatten⟩) ∧
        (satnNamed fs ⟨false, i, b, o⟩ false idx =
          ⟨false, i, b, o ++ joinComma (namedEntriesOut fs idx)⟩))
      (fun _ => trivial) (fun _ => trivial) (fun _ => trivial) (fun _ => trivial)
      (fun _ => trivial) (fun _ => trivial) (fun _ _ => trivial) (fun _ _ => trivial)
      (fun _ _ _ _ => trivial) trivial (fun _ _ _ _ => trivial)
      hFNil (fun name v fs _ ihf => hFCons name v fs ihf) fs

/-- C8 — in flat SATN a named product renders as `'('` plus the `", "`-
separated `name = value` entries plus `')'`, a missing name replaced by
the zero-based running field index; concretely `{x: 1, y: 2}` renders as
`"(x = 1, y = 2)"` and the unnamed pair `(1, 2)` as `"(0 = 1, 1 = 2)"`. -/
theorem satn_c8_named_product_flat :
    (∀ (fs : FieldList) (i : Nat) (b : Bool) (o : List Char),
      satnSer (.vProduct fs) ⟨false, i, b, o⟩ =
        ⟨false, i, b,
          o ++ "(".data ++ joinComma (namedEntriesOut fs 0) ++ ")".data⟩) ∧
    satnStr (.vProduct (.cons (some "x") (.vU64 1)
      (.cons (some "y") (.vU64 2) .nil))) = "(x = 1, y = 2)" ∧
    satnStr (.vProduct (.cons none (.vU64 1)
      (.cons none (.vU64 2) .nil))) = "(0 = 1, 1 = 2)" := by
  refine ⟨?_, by decide, by decide⟩
  intro fs i b o
  rw [satnSer, writeStr_flat, (satnNamed_entries fs 0 i b _).2, writeStr_flat]

/- ## Format-decision precedence (C5) -/

/-- C5 — `use_fmt` is first-match-wins in the precedence the spec states:
the opaque-hex checks (record level, field-type level, name-tag level)
first, then the timestamp checks at the same three levels, then the
duration checks, and otherwise plain; being a function it produces
exactly one decision per field. -/
theorem psql_c5_use_fmt_precedence :
    ∀ (ty : PsqlType) (name : Option String),
      (ty.use_fmt name = .Hex ↔
        (ty.tuple.is_identity || ty.tuple.is_connection_id
          || ty.field.2.is_identity || ty.field.2.is_connection_id
          || (name.map is_identity_tag).getD false
          || (name.map is_connection_id_tag).getD false) = true) ∧
      (ty.use_fmt name = .Timestamp ↔
        (ty.tuple.is_identity || ty.tuple.is_connection_id
          || ty.field.2.is_identity || ty.field.2.is_connection_id
          || (name.map is_identity_tag).getD false
          || (name.map is_connection_id_tag).getD false) = false ∧
        (ty.tuple.is_timestamp || ty.field.2.is_timestamp
          || (name.map is_timestamp_tag).getD false) = true) ∧
      (ty.use_fmt name = .Duration ↔
        (ty.tuple.is_identity || ty.tuple.is_connection_id
          || ty.field.2.is_identity || ty.field.2.is_connection_id
          || (name.map is_identity_tag).getD false
          || (name.map is_connection_id_tag).getD false) = false ∧
        (ty.tuple.is_timestamp || ty.field.2.is_timestamp
          || (name.map is_timestamp_tag).getD false) = false ∧
        (ty.tuple.is_time_duration || ty.field.2.is_time_duration
          || (name.map is_time_duration_tag).getD false) = true) ∧
      (ty.use_fmt name = .Satn ↔
        (ty.tuple.is_identity || ty.tuple.is_connection_id
          || ty.field.2.is_identity || ty.field.2.is_connection_id
          || (name.map is_identity_tag).getD false
          || (name.map is_connection_id_tag).getD false) = false ∧
        (ty.tuple.is_timestamp || ty.field.2.is_timestamp
          || (name.map is_timestamp_tag).getD false) = false ∧
        (ty.tuple.is_time_duration || ty.field.2.is_time_duration
          || (name.map is_time_duration_tag).getD false) = false) := by
  intro ty name
  set A := ty.tuple.is_identity || ty.tuple.is_connection_id
    || ty.field.2.is_identity || ty.field.2.is_connection_id
    || (name.map is_identity_tag).getD false
    || (name.map is_connection_id_tag).getD false with hA
  set B := ty.tuple.is_timestamp || ty.field.2.is_timestamp
    || (name.map is_timestamp_tag).getD false with hB
  set C := ty.tuple.is_time_duration || ty.field.2.is_time_duration
    || (name.map is_time_duration_tag).getD false with hC
  rw [PsqlType.use_fmt, ← hA, ← hB, ← hC]
  cases A <;> cases B <;> cases C <;> simp

/- ## The logs text printer (C9) -/

/-- C9 — a record whose timestamp is absent is a valid input (the record
type admits it by construction) and is printed with no timestamp prefix
but otherwise normally: the output is exactly the level/filename/message/
trace text, and a record with a timestamp prints that same text prefixed
by the timestamp and a space. -/
theorem logs_c9_absent_timestamp :
    (∀ (lvl : LogLevel) (tgt fn : Option String) (ln : Option Nat) (msg : String)
      (tr : Option (List BacktraceFrame)),
      printRecord ⟨none, lvl, tgt, fn, ln, msg, tr⟩ =
        padLeft5 (levelName lvl) ++ ": " ++
        (match fn with
         | some fn => fn ++ (match ln with
             | some l => ":" ++ Nat.repr l
             | none => "")
         | none => "") ++
        ": " ++ msg ++ "\n" ++
        (match tr with
         | some frames => String.join (frames.map frameText)
         | none => "")) ∧
    (∀ (t : String) (lvl : LogLevel) (tgt fn : Option String) (ln : Option Nat)
      (msg : String) (tr : Option (List BacktraceFrame)),
      printRecord ⟨some t, lvl, tgt, fn, ln, msg, tr⟩ =
        t ++ " " ++ printRecord ⟨none, lvl, tgt, fn, ln, msg, tr⟩) := by
  constructor
  · intro lvl tgt fn ln msg tr
    rw [printRecord]
    simp
  · intro t lvl tgt fn ln msg tr
    rw [printRecord, printRecord]
    simp [String.append_assoc]

/- ## PSQL named-product tagging and parentheses (C1) -/

theorem entryGenO_flat (sep : Char) (hf : Bool) (render : Fmt → Option Fmt)
    (i : Nat) (b : Bool) (o : List Char) :
    entryGenO sep hf render ⟨false, i, b, o⟩ =
      render ⟨false, i, b, o ++ (if hf then [sep, ' '] else [])⟩ := by
  rw [entryGenO]
  cases hf <;> simp [writeChar_flat]

theorem psqlNamed_u64_flat (ty : PsqlType) (hnp : ty.field.2.as_product = none) :
    ∀ (fields : List (Option String × Nat)) (start hf : Bool) (idx i : Nat)
      (b : Bool) (o : List Char) (last : PsqlPrintFmt),
      psqlNamed (natFields fields) ty ⟨false, i, b, o⟩ start hf idx last =
        some (⟨false, i, b, o ++ psqlRefGo ty fields start hf⟩,
          psqlRefEndGo ty last fields) := by
  intro fields
  induction fields with
  | nil =>
    intro start hf idx i b o last
    simp [natFields, psqlNamed, psqlRefGo, psqlRefEndGo]
  | cons fld fs ih =>
    intro start hf idx i b o last
    obtain ⟨name, n⟩ := fld
    rw [natFields, psqlNamed, entryGenO_flat, psqlRefGo, psqlRefEndGo]
    simp only [psqlDerive, hnp]
    cases hsp : (ty.use_fmt name).is_special <;> cases start <;> cases hf <;>
      simp [hsp, psqlSer, satnSer, writeStr_flat, ih]

/-- C1 (amended) — in flat PSQL mode, for a named product of primitive
(u64) fields under a cursor whose field type is not a product: a
special-decision field is emitted bare (no parentheses, no `name = ` tag,
index not advanced) and a plain-decision field is emitted tagged, but the
`(` is written immediately before the first plain field's tag and the `)`
is written at `end` only when the last field's decision is plain (`Satn`
when there are no fields); the output therefore balances its parentheses
only when no field is plain or the final field is plain, exactly as
`psqlRefGo`/`psqlRefEnd` describe. -/
theorem psql_c1_amended :
    ∀ (ty : PsqlType) (fields : List (Option String × Nat)) (i : Nat) (b : Bool)
      (o : List Char),
      ty.field.2.as_product = none →
      psqlSer (.vProduct (natFields fields)) ty ⟨false, i, b, o⟩ =
        some ⟨false, i, b,
          o ++ psqlRefGo ty fields true false ++
            (if (psqlRefEnd ty fields).is_special then [] else ")".data)⟩ := by
  intro ty fields i b o hnp
  rw [psqlSer, psqlNamed_u64_flat ty hnp, psqlRefEnd]
  cases hsp : (psqlRefEndGo ty .Satn fields).is_special <;>
    simp [hsp, writeStr_flat]

/-- C1 counterexample — a record whose first field `x` is plain and whose
second field is special by the reserved timestamp name tag renders as
`"(x = 1, 5"`: the special field is bare and untagged, but the output has
one `'('` and no `')'`, so the parentheses are not balanced. -/
theorem psql_c1_counterexample :
    psqlStr (.vProduct (natFields [(some "x", 1), (some timestampTag, 5)])) tyPlain
        = some "(x = 1, 5" ∧
    tyPlain.use_fmt (some "x") = .Satn ∧
    tyPlain.use_fmt (some timestampTag) = .Timestamp ∧
    ("(x = 1, 5".data.count '(') = 1 ∧ ("(x = 1, 5".data.count ')') = 0 := by
  refine ⟨by decide, by decide, by decide, by decide, by decide⟩

/-- C1 witness — the amended theorem applied to the mixed plain/special
record of the counterexample. -/
theorem psql_c1_amended_witness :
    tyPlain.field.2.as_product = none ∧
    psqlSer (.vProduct (natFields [(some "x", 1), (some timestampTag, 5)])) tyPlain
        ⟨false, 0, false, []⟩ =
      some ⟨false, 0, false,
        [] ++ psqlRefGo tyPlain [(some "x", 1), (some timestampTag, 5)] true false ++
          (if (psqlRefEnd tyPlain [(some "x", 1), (some timestampTag, 5)]).is_special
            then [] else ")".data)⟩ :=
  ⟨rfl,
    psql_c1_amended tyPlain [(some "x", 1), (some timestampTag, 5)] 0 false [] rfl⟩

/- ## Nested-cursor derivation (C2) -/

/-- C2 counterexample — the nested cursor does not restart at the nested
record's first element: in `(a = 1, 0 = (1 = 7))` the inner unnamed field
prints the outer running index `1` (the cursor seeded for the nested
record is `(outer product, element at the running index, running index)`),
whereas a cursor restarting at index 0 would have printed `(0 = 7)`. -/
theorem psql_c2_counterexample :
    psqlStr nestedVal tyNested = some "(a = 1, 0 = (1 = 7))" ∧
    some "(a = 1, 0 = (1 = 7))" ≠ some "(a = 1, 0 = (0 = 7))" :=
  ⟨by decide, by decide⟩

/-- C2 (amended) — when the cursor field's declared type is a product `p`,
the cursor passed to a nested value is re-seeded to `p`, `p`'s element at
the outer frame's running index, and that running index (not index 0);
when it is not a product the cursor passes through unchanged; the outer
frame's cursor value is never mutated (cursors are fresh values).  The
claim's consequent still holds: a timestamp-tagged inner record nested in
an untagged outer record renders the inner field in the timestamp
alternate form. -/
theorem psql_c2_amended :
    (∀ (ty : PsqlType) (idx : Nat) (p : ProductTy) (fld : Option String × AlgebraicTy),
      ty.field.2 = .prodTy p → p.elements.get idx = some fld →
      psqlDerive ty idx = some ⟨p, fld, idx⟩) ∧
    (∀ (ty : PsqlType) (idx : Nat),
      ty.field.2.as_product = none → psqlDerive ty idx = some ty) ∧
    (tyOuterTs.use_fmt (some "inner") = .Satn ∧
      psqlStr outerTsVal tyOuterTs = some ("(inner = " ++ timestampText 5 ++ ")")) := by
  refine ⟨?_, ?_, by decide, by decide⟩
  · intro ty idx p fld h1 h2
    simp [psqlDerive, h1, AlgebraicTy.as_product, h2]
  · intro ty idx h
    simp [psqlDerive, h]

/-- C2 witness — the amended derivation equation applied to the concrete
outer record type of the timestamp example. -/
theorem psql_c2_amended_witness :
    tyOuterTs.field.2 = .prodTy outerWithTsTy ∧
    outerWithTsTy.elements.get 0 = some (some "inner", .prodTy tsProductTy) ∧
    psqlDerive tyOuterTs 0 =
      some ⟨outerWithTsTy, (some "inner", .prodTy tsProductTy), 0⟩ :=
  ⟨rfl, rfl, psql_c2_amended.1 tyOuterTs 0 outerWithTsTy
    (some "inner", .prodTy tsProductTy) rfl rfl⟩

/- ## PSQL nested-derivation safety (C10) -/

theorem entryGenO_isSome (sep : Char) (hf : Bool) (render : Fmt → Option Fmt)
    (w : Fmt) (h : ∀ f, (render f).isSome = true) :
    (entryGenO sep hf render w).isSome = true := by
  have hne : ∀ f, ¬(render f = none) := by
    intro f hf2
    have h2 := h f
    rw [hf2] at h2
    simp at h2
  cases hr : entryGenO sep hf render w with
  | some w2 => simp
  | none =>
    exfalso
    rw [entryGenO] at hr
    split at hr
    · split at hr
      · simp only [] at hr
        split at hr
        next heq => exact hne _ heq
        next => simp at hr
      · simp only [] at hr
        split at hr
        next heq => exact hne _ heq
        next => simp at hr
    · exact hne _ hr

/-- C10 (amended) — the PSQL serializer cannot hit the out-of-bounds
element access in the nested-cursor derivation provided that, at every
product node the traversal reaches (with the running index advanced
exactly as the formatter advances it, i.e. not for special fields), the
derivation's index stays within the cursor field's product element list —
the condition `wfVal` checks; under it serialization always succeeds. -/
theorem psql_c10_amended :
    ∀ (v : AlgValue) (ty : PsqlType) (w : Fmt),
      wfVal ty v = true → (psqlSer v ty w).isSome = true := by
  have hFCons : ∀ (name : Option String) (v : AlgValue) (fs : FieldList),
      (∀ (ty : PsqlType) (w : Fmt), wfVal ty v = true → (psqlSer v ty w).isSome = true) →
      (∀ (ty : PsqlType) (w : Fmt) (start hf : Bool) (idx : Nat) (last : PsqlPrintFmt),
        wfFields ty idx fs = true →
        (psqlNamed fs ty w start hf idx last).isSome = true) →
      ∀ (ty : PsqlType) (w : Fmt) (start hf : Bool) (idx : Nat) (last : PsqlPrintFmt),
        wfFields ty idx (.cons name v fs) = true →
        (psqlNamed (.cons name v fs) ty w start hf idx last).isSome = true := by
    intro name v fs ihv ihf ty w start hf idx last hwf
    rw [wfFields] at hwf
    simp only [Bool.and_eq_true] at hwf
    obtain ⟨h1, h2⟩ := hwf
    cases hd : psqlDerive ty idx with
    | none => rw [hd] at h1; simp at h1
    | some ty2 =>
      rw [hd] at h1
      rw [psqlNamed]
      have hrender : ∀ f : Fmt,
          ((fun f =>
            let f :=
              if !(ty.use_fmt name).is_special then
                let f := if start then writeStr ("(") f else f
                writeStr (" = ") (writeStr (name.getD (Nat.repr ty.idx)) f)
              else f
            match psqlDerive ty idx with
            | some ty2 => psqlSer v ty2 f
            | none => none) f).isSome = true := by
        intro f
        simp only [hd]
        exact ihv ty2 _ h1
      have hsome := entryGenO_isSome ',' hf _ w hrender
      cases he : entryGenO ',' hf _ w with
      | none => rw [he] at hsome; simp at hsome
      | some w2 => exact ihf ty w2 _ true _ _ h2
  have hprim : ∀ (v : AlgValue),
      (∀ (fs : FieldList), v ≠ .vProduct fs) →
      ∀ (ty : PsqlType) (w : Fmt),
        wfVal ty v = true → (psqlSer v ty w).isSome = true := by
    intro v hne ty w _
    cases v with
    | vProduct fs => exact absurd rfl (hne fs)
    | vU256 n => cases h : ty.use_fmt none <;> simp [psqlSer, h]
    | vI64 n => cases h : ty.use_fmt none <;> simp [psqlSer, h]
    | vBool b => simp [psqlSer]
    | vU64 n => simp [psqlSer]
    | vStr s => simp [psqlSer]
    | vBytes bs => simp [psqlSer]
    | vArray es => simp [psqlSer]
    | vSum tag name v => simp [psqlSer]
  intro v
  refine @AlgValue.rec
    (fun v => ∀ (ty : PsqlType) (w : Fmt),
      wfVal ty v = true → (psqlSer v ty w).isSome = true)
    (fun _ => True)
    (fun fs => ∀ (ty : PsqlType) (w : Fmt) (start hf : Bool) (idx : Nat)
      (last : PsqlPrintFmt),
      wfFields ty idx fs = true →
      (psqlNamed fs ty w start hf idx last).isSome = true)
    (fun b => hprim (.vBool b) (by intro fs h; cases h))
    (fun n => hprim (.vU64 n) (by intro fs h; cases h))
    (fun n => hprim (.vU256 n) (by intro fs h; cases h))
    (fun x => hprim (.vI64 x) (by intro fs h; cases h))
    (fun s => hprim (.vStr s) (by intro fs h; cases h))
    (fun bs => hprim (.vBytes bs) (by intro fs h; cases h))
    (fun es _ => hprim (.vArray es) (by intro fs h; cases h))
    (fun fs ihf ty w hwf => by
      rw [psqlSer]
      have hn : wfFields ty 0 fs = true := by rw [wfVal] at hwf; exact hwf
      have hs := ihf ty w true false 0 .Satn hn
      cases he : psqlNamed fs ty w true false 0 .Satn with
      | none => rw [he] at hs; simp at hs
      | some p => obtain ⟨w2, l⟩ := p; simp)
    (fun tag name v _ => hprim (.vSum tag name v) (by intro fs h; cases h))
    trivial
    (fun _ _ _ _ => trivial)
    (fun ty w start hf idx last _ => by simp [psqlNamed])
    (fun name v fs ihv ihf => hFCons name v fs ihv ihf)
    v

/-- C10 counterexample — serialization does panic on a well-typed input:
the first field is special by the reserved timestamp name tag, so the
running index is not advanced, and the second field's derivation then
indexes the one-element product `oneFieldTy` at position 1, out of
bounds; the serializer returns `none` (the modelled panic). -/
theorem psql_c10_counterexample :
    psqlSer oobVal tyOob ⟨false, 0, false, []⟩ = none ∧
    wfVal tyOob oobVal = false ∧
    tyOob.use_fmt (some timestampTag) = .Timestamp ∧
    tyOob.use_fmt (some "b") = .Satn ∧
    oneFieldTy.elements.get 1 = none :=
  ⟨by decide, by decide, by decide, by decide, rfl⟩

/-- C10 witness — the amended theorem applied to the nested record of the
C2 counterexample, whose derivations are all in bounds. -/
theorem psql_c10_amended_witness :
    wfVal tyNested nestedVal = true ∧
    (psqlSer nestedVal tyNested ⟨false, 0, false, []⟩).isSome = true :=
  ⟨by decide, psql_c10_amended nestedVal tyNested ⟨false, 0, false, []⟩ (by decide)⟩

/- ## Flat PSQL vs plain SATN (C4) -/

theorem is_special_false_eq_satn {u : PsqlPrintFmt} (h : u.is_special = false) :
    u = .Satn := by
  cases u <;> simp [PsqlPrintFmt.is_special] at h ⊢

theorem psql_c4_cons_case :
    ∀ (name : Option String) (v : AlgValue) (fs : FieldList),
      (∀ (ty : PsqlType) (i : Nat) (b : Bool) (o : List Char),
        plainNamedB ty v = true →
        psqlSer v ty ⟨false, i, b, o⟩ = some (satnSer v ⟨false, i, b, o⟩)) →
      (∀ (ty : PsqlType) (idx i : Nat) (b : Bool) (o : List Char) (hf : Bool),
        plainNamedFields ty idx fs = true →
        (psqlNamed fs ty ⟨false, i, b, o⟩ false hf idx .Satn =
          some (satnNamed fs ⟨false, i, b, o⟩ hf idx, .Satn)) ∧
        (psqlNamed fs ty ⟨false, i, b, o⟩ true false idx .Satn =
          some ((match fs with
            | .nil => ⟨false, i, b, o⟩
            | .cons _ _ _ => satnNamed fs (writeStr ("(") ⟨false, i, b, o⟩) false idx),
            .Satn))) →
      ∀ (ty : PsqlType) (idx i : Nat) (b : Bool) (o : List Char) (hf : Bool),
        plainNamedFields ty idx (.cons name v fs) = true →
        (psqlNamed (.cons name v fs) ty ⟨false, i, b, o⟩ false hf idx .Satn =
          some (satnNamed (.cons name v fs) ⟨false, i, b, o⟩ hf idx, .Satn)) ∧
        (psqlNamed (.cons name v fs) ty ⟨false, i, b, o⟩ true false idx .Satn =
          some ((match (.cons name v fs : FieldList) with
            | .nil => ⟨false, i, b, o⟩
            | .cons _ _ _ =>
              satnNamed (.cons name v fs) (writeStr ("(") ⟨false, i, b, o⟩) false idx),
            .Satn)) := by
  intro name v fs ihv ihf ty idx i b o hf hpf
  rw [plainNamedFields] at hpf
  simp only [Bool.and_eq_true] at hpf
  obtain ⟨⟨⟨hname, hsp⟩, hder⟩, hrest⟩ := hpf
  cases name with
  | none => simp at hname
  | some nm =>
  cases hd : psqlDerive ty idx with
  | none => rw [hd] at hder; simp at hder
  | some ty2 =>
  rw [hd] at hder
  have hpv : plainNamedB ty2 v = true := hder
  have huf : ty.use_fmt (some nm) = .Satn :=
    is_special_false_eq_satn (by simpa using hsp)
  have ihv2 : ∀ (i : Nat) (b : Bool) (o : List Char),
      psqlSer v ty2 ⟨false, i, b, o⟩ = some (satnSer v ⟨false, i, b, o⟩) :=
    fun i b o => ihv ty2 i b o hpv
  have ihf1 : ∀ (i : Nat) (b : Bool) (o : List Char) (hf : Bool),
      psqlNamed fs ty ⟨false, i, b, o⟩ false hf (idx + 1) .Satn =
        some (satnNamed fs ⟨false, i, b, o⟩ hf (idx + 1), .Satn) :=
    fun i b o hf => (ihf ty (idx + 1) i b o hf hrest).1
  constructor <;>
  · rw [psqlNamed, satnNamed]
    simp [entryGenO_flat, entryGen_flat, writeStr_flat, huf, hd,
      PsqlPrintFmt.is_special, ihv2, satn_flat_shift.1 v, ihf1]

/-- C4 (amended) — in flat mode, for a value in which every product
reached is non-empty with all fields named, every format decision along
the traversal is plain and every nested derivation is in bounds (the
`plainNamedB` condition), PSQL serialization produces byte-identical
output to plain SATN serialization.  Without the extra conditions the
outputs differ: unnamed fields print the cursor's fixed seeded index
rather than the running index (see the counterexample), an empty product
renders as `)` in PSQL, and in pretty mode the `(` is emitted inside the
first entry after the newline and indentation rather than before it. -/
theorem psql_c4_amended :
    ∀ (v : AlgValue) (ty : PsqlType) (i : Nat) (b : Bool) (o : List Char),
      plainNamedB ty v = true →
      psqlSer v ty ⟨false, i, b, o⟩ = some (satnSer v ⟨false, i, b, o⟩) := by
  have hU256 : ∀ (n : Nat) (ty : PsqlType) (i : Nat) (b : Bool) (o : List Char),
      plainNamedB ty (.vU256 n) = true →
      psqlSer (.vU256 n) ty ⟨false, i, b, o⟩ =
        some (satnSer (.vU256 n) ⟨false, i, b, o⟩) := by
    intro n ty i b o h
    simp only [plainNamedB] at h
    have huf := is_special_false_eq_satn (by simpa using h)
    simp [psqlSer, satnSer, huf]
  have hI64 : ∀ (x : Int) (ty : PsqlType) (i : Nat) (b : Bool) (o : List Char),
      plainNamedB ty (.vI64 x) = true →
      psqlSer (.vI64 x) ty ⟨false, i, b, o⟩ =
        some (satnSer (.vI64 x) ⟨false, i, b, o⟩) := by
    intro x ty i b o h
    simp only [plainNamedB] at h
    have huf := is_special_false_eq_satn (by simpa using h)
    simp [psqlSer, satnSer, huf]
  have hProd : ∀ (fs : FieldList),
      (∀ (ty : PsqlType) (idx i : Nat) (b : Bool) (o : List Char) (hf : Bool),
        plainNamedFields ty idx fs = true →
        (psqlNamed fs ty ⟨false, i, b, o⟩ false hf idx .Satn =
          some (satnNamed fs ⟨false, i, b, o⟩ hf idx, .Satn)) ∧
        (psqlNamed fs ty ⟨false, i, b, o⟩ true false idx .Satn =
          some ((match fs with
            | .nil => ⟨false, i, b, o⟩
            | .cons _ _ _ => satnNamed fs (writeStr ("(") ⟨false, i, b, o⟩) false idx),
            .Satn))) →
      ∀ (ty : PsqlType) (i : Nat) (b : Bool) (o : List Char),
        plainNamedB ty (.vProduct fs) = true →
        psqlSer (.vProduct fs) ty ⟨false, i, b, o⟩ =
          some (satnSer (.vProduct fs) ⟨false, i, b, o⟩) := by
    intro fs ihf ty i b o h
    simp only [plainNamedB, Bool.and_eq_true] at h
    obtain ⟨hne, hpf⟩ := h
    cases fs with
    | nil => simp at hne
    | cons n0 v0 fs0 =>
      rw [psqlSer, (ihf ty 0 i b o false hpf).2]
      simp [PsqlPrintFmt.is_special, satnSer]
  intro v
  refine @AlgValue.rec
    (fun v => ∀ (ty : PsqlType) (i : Nat) (b : Bool) (o : List Char),
      plainNamedB ty v = true →
      psqlSer v ty ⟨false, i, b, o⟩ = some (satnSer v ⟨false, i, b, o⟩))
    (fun _ => True)
    (fun fs => ∀ (ty : PsqlType) (idx i : Nat) (b : Bool) (o : List Char) (hf : Bool),
      plainNamedFields ty idx fs = true →
      (psqlNamed fs ty ⟨false, i, b, o⟩ false hf idx .Satn =
        some (satnNamed fs ⟨false, i, b, o⟩ hf idx, .Satn)) ∧
      (psqlNamed fs ty ⟨false, i, b, o⟩ true false idx .Satn =
        some ((match fs with
          | .nil => ⟨false, i, b, o⟩
          | .cons _ _ _ => satnNamed fs (writeStr ("(") ⟨false, i, b, o⟩) false idx),
          .Satn)))
    (fun b ty i b2 o _ => rfl)
    (fun n ty i b o _ => rfl)
    (fun n => hU256 n)
    (fun x => hI64 x)
    (fun s ty i b o _ => rfl)
    (fun bs ty i b o _ => rfl)
    (fun es _ ty i b o _ => rfl)
    (fun fs ihf => hProd fs ihf)
    (fun tag name v _ ty i b o _ => rfl)
    trivial
    (fun _ _ _ _ => trivial)
    (fun ty idx i b o hf _ => by constructor <;> simp [psqlNamed, satnNamed])
    (fun name v fs ihv ihf => psql_c4_cons_case name v fs ihv ihf)
    v

/-- C4 counterexample — an all-plain positional pair under an all-plain
cursor renders as `"(0 = 1, 0 = 2)"` in PSQL (the fixed seeded cursor
index is printed for every unnamed field) but as `"(0 = 1, 1 = 2)"` in
plain SATN, so the outputs are not byte-identical even though every
field's decision is plain. -/
theorem psql_c4_counterexample :
    tyPlain.use_fmt none = .Satn ∧
    psqlStr (.vProduct (natFields [(none, 1), (none, 2)])) tyPlain =
      some "(0 = 1, 0 = 2)" ∧
    satnStr (.vProduct (natFields [(none, 1), (none, 2)])) = "(0 = 1, 1 = 2)" ∧
    some "(0 = 1, 0 = 2)" ≠ some ("(0 = 1, 1 = 2)") :=
  ⟨by decide, by decide, by decide, by decide⟩

/-- C4 witness — the amended theorem applied to a two-field named
product, the hypothesis evaluated by `decide`. -/
theorem psql_c4_amended_witness :
    plainNamedB tyPlain (.vProduct (natFields [(some "x", 1), (some "y", 2)])) = true ∧
    psqlSer (.vProduct (natFields [(some "x", 1), (some "y", 2)])) tyPlain
        ⟨false, 0, false, []⟩ =
      some (satnSer (.vProduct (natFields [(some "x", 1), (some "y", 2)]))
        ⟨false, 0, false, []⟩) :=
  ⟨by decide,
    psql_c4_amended (.vProduct (natFields [(some "x", 1), (some "y", 2)])) tyPlain
      0 false [] (by decide)⟩
